import Mathlib

/-
Formal model of the database abstraction layer in labm8/sqlutil.py.

Python strings are embedded as lists of characters (Str), the filesystem and
the two database servers as an explicit World record, sessions as explicit
state records, and the generator OffsetLimitBatchedQuery as a fuelled loop
producing the list of all emitted batches.
-/

set_option maxHeartbeats 1000000

/-- A Python string, embedded as its list of characters. -/
abbrev Str := List Char

/-- Python s.split(c) for a single-character separator. -/
def splitOnChar (c : Char) : Str → List Str
  | [] => [[]]
  | a :: rest =>
    if a = c then [] :: splitOnChar c rest
    else (a :: (splitOnChar c rest).headD []) :: (splitOnChar c rest).tail

/-- Python sep.join(parts). -/
def joinWith (sep : Str) : List Str → Str
  | [] => []
  | [x] => x
  | x :: y :: rest => x ++ sep ++ joinWith sep (y :: rest)

/-- Python s.startswith(pre): the first argument is the candidate leading part. -/
def startsWith : Str → Str → Bool
  | [], _ => true
  | _ :: _, [] => false
  | a :: as, b :: bs => if a = b then startsWith as bs else false

/-- Python s.lstrip(). -/
def lstrip (s : Str) : Str := s.dropWhile Char.isWhitespace

/-- Python s.strip(): whitespace removed from both ends. -/
def strip (s : Str) : Str :=
  ((lstrip s).reverse.dropWhile Char.isWhitespace).reverse

/-- First-match association-list lookup (Python dict access / file lookup). -/
def assocLookup {κ ν : Type} [DecidableEq κ] (k : κ) : List (κ × ν) → Option ν
  | [] => none
  | (k1, v) :: r => if k1 = k then some v else assocLookup k r

/-- The characters of the url scheme check string "mysql://". -/
def mysqlScheme : Str := ['m', 'y', 's', 'q', 'l', ':', '/', '/']

/-- The characters of "sqlite://", which is also the in-memory descriptor. -/
def sqliteScheme : Str := ['s', 'q', 'l', 'i', 't', 'e', ':', '/', '/']

/-- The characters of "sqlite:////", the absolute-path single-file form. -/
def sqliteAbsoluteForm : Str := ['s', 'q', 'l', 'i', 't', 'e', ':', '/', '/', '/', '/']

/-- The characters of "postgresql://". -/
def postgresqlScheme : Str := ['p', 'o', 's', 't', 'g', 'r', 'e', 's', 'q', 'l', ':', '/', '/']

/-- The characters of "file://", the indirection scheme. -/
def fileScheme : Str := ['f', 'i', 'l', 'e', ':', '/', '/']

/-- The external state CreateEngine interacts with: local files (path and
contents), the schemas present on the MySQL server, and the databases present
on the PostgreSQL server. Directory creation by mkdir is not tracked. -/
structure World where
  files : List (Str × Str)
  mysqlSchemas : List Str
  pgDatabases : List Str
deriving DecidableEq

/-- Contents of the file at path p, if it exists (Path.is_file / open.read). -/
def lookupFile (w : World) (p : Str) : Option Str := assocLookup p w.files

/-- Python Path.is_file() over the modelled world. -/
def isFile (w : World) (p : Str) : Bool := (lookupFile w p).isSome

/-- url.split('/')[-1].split('?')[0], the database name used by the MySQL
branch of CreateEngine and by Database.Drop. -/
def mysqlDatabaseName (url : Str) : Str :=
  (splitOnChar '?' ((splitOnChar '/' url).getLastD [])).headD []

/-- url.split('/')[-1], the database name used by the PostgreSQL branch. -/
def pgDatabaseName (url : Str) : Str := (splitOnChar '/' url).getLastD []

/-- The errors CreateEngine can raise, one constructor per raise site. -/
inductive CreateEngineError
  | databaseNotFound (url : Str)
  | relativeSqlitePathError
  | inMemoryMustExistError
  | relativeFilePathError
  | fileNotFoundError (path : Str)
  | unsupportedUrlError (url : Str)
deriving DecidableEq

/-- A successfully built engine: the url handed to sql.create_engine and the
world after all side effects. -/
structure EngineOk where
  url : Str
  world : World
deriving DecidableEq

/-- The eager connect-and-close at the end of CreateEngine: for a single-file
SQLite url the first connection creates the database file if absent. -/
def touchSqliteFile (url : Str) (w : World) : World :=
  if startsWith sqliteAbsoluteForm url = true then
    if isFile w (url.drop 10) then w
    else ⟨w.files ++ [(url.drop 10, [])], w.mysqlSchemas, w.pgDatabases⟩
  else w

/-- Models the tail of CreateEngine: sql.create_engine(url) followed by
engine.connect().close(). -/
def makeEngine (url : Str) (w : World) : Except CreateEngineError EngineOk :=
  Except.ok ⟨url, touchSqliteFile url w⟩

/-- The comment stripping applied to the contents of a file:// referenced
file: drop every line whose lstrip starts with '#', join the remaining lines
with a newline, and strip surrounding whitespace from the result. -/
def stripComments (contents : Str) : Str :=
  strip (joinWith ['\n']
    ((splitOnChar '\n' contents).filter (fun x => !startsWith ['#'] (lstrip x))))

/-- CreateEngine from sqlutil.py. The fuel argument bounds the recursion
depth through file:// indirections (Python has no bound either: a cycle of
file:// urls would not terminate); none means the fuel ran out. -/
def CreateEngineRec : Nat → Str → Bool → World → Option (Except CreateEngineError EngineOk)
  | 0, _, _, _ => none
  | fuel + 1, url, must_exist, w =>
    if startsWith mysqlScheme url = true then
      let database := mysqlDatabaseName url
      if w.mysqlSchemas.contains database then some (makeEngine url w)
      else if must_exist then some (Except.error (CreateEngineError.databaseNotFound url))
      else some (makeEngine url ⟨w.files, w.mysqlSchemas ++ [database], w.pgDatabases⟩)
    else if startsWith sqliteScheme url = true then
      if ¬url = sqliteScheme ∧ startsWith sqliteAbsoluteForm url = false then
        some (Except.error CreateEngineError.relativeSqlitePathError)
      else if url = sqliteScheme then
        if must_exist then some (Except.error CreateEngineError.inMemoryMustExistError)
        else some (makeEngine url w)
      else
        if must_exist then
          if isFile w (url.drop 10) then some (makeEngine url w)
          else some (Except.error (CreateEngineError.databaseNotFound url))
        else
          some (makeEngine url w)
    else if startsWith postgresqlScheme url = true then
      let database := pgDatabaseName url
      if w.pgDatabases.contains database then some (makeEngine url w)
      else if must_exist then some (Except.error (CreateEngineError.databaseNotFound url))
      else some (makeEngine url ⟨w.files, w.mysqlSchemas, w.pgDatabases ++ [database]⟩)
    else if startsWith fileScheme url = true then
      let components := splitOnChar '?' url
      let path := (components.headD []).drop 7
      let suffix := joinWith ['?'] components.tail
      if startsWith ['/'] path = false then
        some (Except.error CreateEngineError.relativeFilePathError)
      else
        match lookupFile w path with
        | none => some (Except.error (CreateEngineError.fileNotFoundError path))
        | some contents =>
          CreateEngineRec fuel (stripComments contents ++ suffix) must_exist w
    else
      some (Except.error (CreateEngineError.unsupportedUrlError url))

/-- Errors raised by Database.Drop. -/
inductive DropError
  | confirmationRequiredError
  | assertionError
  | notImplementedError (url : Str)
deriving DecidableEq

/-- Destructive statements and filesystem operations Drop performs. -/
inductive DropAction
  | execDropDatabase (database : Str)
  | unlink (path : Str)
deriving DecidableEq

/-- The outcome of Drop: the raised error if any, the destructive actions
performed, and the world afterwards. -/
structure DropResult where
  error : Option DropError
  actions : List DropAction
  world : World
deriving DecidableEq

/-- Database.Drop from sqlutil.py. -/
def Drop (url : Str) (are_you_sure_about_this_flag : Bool) (w : World) : DropResult :=
  if are_you_sure_about_this_flag = false then
    ⟨some DropError.confirmationRequiredError, [], w⟩
  else if startsWith mysqlScheme url = true then
    let database := mysqlDatabaseName url
    ⟨none, [DropAction.execDropDatabase database],
      ⟨w.files, w.mysqlSchemas.filter (fun d => !decide (d = database)), w.pgDatabases⟩⟩
  else if startsWith sqliteScheme url = true then
    let path := url.drop 10
    if isFile w path then
      ⟨none, [DropAction.unlink path],
        ⟨w.files.filter (fun kv => !decide (kv.1 = path)), w.mysqlSchemas, w.pgDatabases⟩⟩
    else
      ⟨some DropError.assertionError, [], w⟩
  else
    ⟨some (DropError.notImplementedError url), [], w⟩

/-- The connection-lifecycle events issued by the Database.Session scope, in
order: commit, rollback, close. -/
inductive SessionEvent
  | commit
  | rollback
  | close
deriving DecidableEq

/-- Outcome of one Database.Session scope: the value or error handed back to
the caller, the committed database state afterwards, and the events issued on
the session, in order. -/
structure SessionScopeResult (sigma epsilon : Type) where
  outcome : Except epsilon Unit
  db : sigma
  events : List SessionEvent

/-- Models the Database.Session context manager from sqlutil.py. The body of
the with-block is a function from the committed state to either an error or
the pending (staged, uncommitted) state. On normal exit the scope commits the
pending state when the commit flag is set; on an error it rolls back, leaving
the committed state unchanged, and re-raises; the session is closed in a
finally block on every path. -/
def sessionScope {sigma epsilon : Type} (commit : Bool) (db : sigma)
    (body : sigma → Except epsilon sigma) : SessionScopeResult sigma epsilon :=
  match body db with
  | Except.ok pending =>
    if commit then ⟨Except.ok (), pending, [SessionEvent.commit, SessionEvent.close]⟩
    else ⟨Except.ok (), db, [SessionEvent.close]⟩
  | Except.error e => ⟨Except.error e, db, [SessionEvent.rollback, SessionEvent.close]⟩

/-- A value bound to a column in a filter or constructor argument: either a
literal or an sql.sql.expression.ClauseElement. -/
inductive SqlValue
  | lit (n : Int)
  | clauseElem (s : String)
deriving DecidableEq

/-- True exactly for ClauseElement values (isinstance check in GetOrAdd). -/
def SqlValue.isClauseElement : SqlValue → Bool
  | SqlValue.clauseElem _ => true
  | SqlValue.lit _ => false

/-- A mapped record / a keyword-argument dictionary: field name to value. -/
abbrev Row := List (String × SqlValue)

/-- query(model).filter_by(**kwargs) matching: every kwargs entry equals the
corresponding field of the row. -/
def rowMatches (kwargs : Row) (r : Row) : Bool :=
  kwargs.all (fun kv => decide (assocLookup kv.1 r = some kv.2))

/-- Python dict.update: entries of base keep their position but take the
value from upd when their key occurs there; keys only in upd are appended. -/
def dictUpdate (base upd : Row) : Row :=
  base.map (fun kv =>
    match assocLookup kv.1 upd with
    | some v => (kv.1, v)
    | none => kv)
  ++ upd.filter (fun kv => (assocLookup kv.1 base).isNone)

/-- The state of one Session: the rows visible to queries, the rows staged
by session.add but not yet flushed or committed, and the number of commits
issued so far. -/
structure SessionState where
  db : List Row
  pending : List Row
  commits : Nat
deriving DecidableEq

/-- GetOrAdd from sqlutil.py: query for the first row matching kwargs; if
none, build the constructor parameters from the non-ClauseElement kwargs
updated with the defaults, and stage the new record with session.add. No
commit is issued. -/
def GetOrAdd (s : SessionState) (defaults : Option Row) (kwargs : Row) :
    Row × SessionState :=
  match s.db.find? (rowMatches kwargs) with
  | some instance1 => (instance1, s)
  | none =>
    let params := dictUpdate (kwargs.filter (fun kv => ! kv.2.isClauseElement))
      (defaults.getD [])
    (params, ⟨s.db, s.pending ++ [params], s.commits⟩)

/-- One element of the OffsetLimitBatchedQuery generator, the namedtuple
OffsetLimitQueryResultsBatch from sqlutil.py. -/
structure OffsetLimitQueryResultsBatch (alpha : Type) where
  batch_num : Nat
  offset : Nat
  limit : Nat
  max_rows : Option Nat
  rows : List alpha
deriving DecidableEq

/-- The while-loop of OffsetLimitBatchedQuery. The query is embedded as the
list of all its rows, so query.offset(i).limit(n).all() is (drop i).take n.
The batch_num argument is the number of loop iterations completed, the last
argument is the current offset i. The fuel bounds the number of iterations;
the caller passes enough fuel that it is never exhausted. -/
def offsetLimitLoop {alpha : Type} (query : List alpha) (batch_size : Nat)
    (max_rows : Option Nat) : Nat → Nat → Nat → List (OffsetLimitQueryResultsBatch alpha)
  | 0, _, _ => []
  | fuel + 1, batch_num, i =>
    let batch := (query.drop i).take batch_size
    if batch.isEmpty then []
    else ⟨batch_num + 1, i, i + batch_size, max_rows, batch⟩ ::
      offsetLimitLoop query batch_size max_rows fuel (batch_num + 1) (i + batch.length)

/-- OffsetLimitBatchedQuery from sqlutil.py, as the list of all batches the
generator yields. query.count() is the length of the embedded row list. The
fuel query.length + 1 suffices for every positive batch size: each iteration
but the last consumes at least one row. -/
def OffsetLimitBatchedQuery {alpha : Type} (query : List alpha) (batch_size : Nat)
    (start_at : Nat) (compute_max_rows : Bool) : List (OffsetLimitQueryResultsBatch alpha) :=
  offsetLimitLoop query batch_size
    (if compute_max_rows then some query.length else none)
    (query.length + 1) 0 start_at

/-- Python str.split never returns an empty list of parts. -/
theorem splitOnChar_ne_nil (c : Char) (l : Str) : splitOnChar c l ≠ [] := by
  cases l with
  | nil => simp [splitOnChar]
  | cons a rest =>
    simp only [splitOnChar]
    split <;> simp

/-- Splitting on a separator that does not occur returns the whole string. -/
theorem splitOnChar_not_mem (c : Char) (xs : Str) (h : c ∉ xs) :
    splitOnChar c xs = [xs] := by
  induction xs with
  | nil => rfl
  | cons a rest ih =>
    simp only [List.mem_cons, not_or] at h
    simp only [splitOnChar, if_neg (Ne.symm h.1), ih h.2]
    rfl

/-- Splitting at the first separator yields the part before it, then the
split of the part after it. -/
theorem splitOnChar_append_sep (c : Char) (xs t : Str) (h : c ∉ xs) :
    splitOnChar c (xs ++ c :: t) = xs :: splitOnChar c t := by
  induction xs with
  | nil => simp [splitOnChar]
  | cons a rest ih =>
    simp only [List.mem_cons, not_or] at h
    rw [List.cons_append, splitOnChar, if_neg (Ne.symm h.1), ih h.2]
    rfl

/-- Joining with the separator is a left inverse of splitting on it. -/
theorem joinWith_splitOnChar (c : Char) (t : Str) :
    joinWith [c] (splitOnChar c t) = t := by
  induction t with
  | nil => rfl
  | cons a r ih =>
    by_cases hac : a = c
    · subst hac
      simp only [splitOnChar, if_pos rfl]
      obtain ⟨s, ss, hss⟩ := List.exists_cons_of_ne_nil (splitOnChar_ne_nil a r)
      rw [hss]
      rw [hss] at ih
      simp [joinWith, ih]
    · simp only [splitOnChar, if_neg hac]
      obtain ⟨s, ss, hss⟩ := List.exists_cons_of_ne_nil (splitOnChar_ne_nil c r)
      rw [hss]
      rw [hss] at ih
      cases ss with
      | nil => simpa [joinWith] using ih
      | cons s2 ss2 =>
        simp only [joinWith, List.headD, List.tail] at ih ⊢
        simp [← ih]

/-- A file:// url does not pass the mysql:// scheme check. -/
theorem startsWith_mysql_of_file (r : Str) :
    startsWith mysqlScheme (fileScheme ++ r) = false := rfl

/-- A file:// url does not pass the sqlite:// scheme check. -/
theorem startsWith_sqlite_of_file (r : Str) :
    startsWith sqliteScheme (fileScheme ++ r) = false := rfl

/-- A file:// url does not pass the postgresql:// scheme check. -/
theorem startsWith_pg_of_file (r : Str) :
    startsWith postgresqlScheme (fileScheme ++ r) = false := rfl

/-- A file:// url passes the file:// scheme check. -/
theorem startsWith_file_of_file (r : Str) :
    startsWith fileScheme (fileScheme ++ r) = true := rfl

/-- Claim C4 (amended): resolving a file:// descriptor whose referenced file
exists at an absolute path equals resolving, with one fewer recursion step,
the descriptor obtained by dropping every line whose first non-whitespace
character is a hash, joining the remaining lines with a newline, stripping
surrounding whitespace from the joined content, and appending the suffix.
The whitespace strip is the amendment relative to the claim as stated. -/
theorem createEngine_file_indirection_strip (fuel : Nat) (me : Bool) (w : World)
    (p t contents : Str) (hq : '?' ∉ p) (habs : startsWith ['/'] p = true)
    (hfile : lookupFile w p = some contents) :
    CreateEngineRec (fuel + 1) ((fileScheme ++ p) ++ '?' :: t) me w
      = CreateEngineRec fuel (stripComments contents ++ t) me w
  ∧ CreateEngineRec (fuel + 1) (fileScheme ++ p) me w
      = CreateEngineRec fuel (stripComments contents) me w := by
  have hq7 : '?' ∉ fileScheme ++ p := by
    simp [fileScheme, hq]
  have hsplit1 : splitOnChar '?' (fileScheme ++ (p ++ '?' :: t))
      = (fileScheme ++ p) :: splitOnChar '?' t := by
    rw [← List.append_assoc]
    exact splitOnChar_append_sep '?' (fileScheme ++ p) t hq7
  have hsplit2 : splitOnChar '?' (fileScheme ++ p) = [fileScheme ++ p] :=
    splitOnChar_not_mem '?' (fileScheme ++ p) hq7
  have hdrop : (fileScheme ++ p).drop 7 = p := rfl
  constructor
  · rw [List.append_assoc]
    simp [CreateEngineRec, startsWith_mysql_of_file, startsWith_sqlite_of_file,
      startsWith_pg_of_file, startsWith_file_of_file, hsplit1, hdrop, habs, hfile,
      joinWith_splitOnChar]
  · simp [CreateEngineRec, startsWith_mysql_of_file, startsWith_sqlite_of_file,
      startsWith_pg_of_file, startsWith_file_of_file, hsplit2, hdrop, habs, hfile,
      joinWith]

/-- Claim C4 (counterexample): for a referenced file whose single data line
carries a leading space, resolving the indirect form succeeds (the code
strips the joined content) while resolving the comment-stripped joined
content directly, as the claim states it, fails as an unsupported url. -/
theorem createEngine_file_indirection_cex :
    CreateEngineRec 2 (fileScheme ++ ['/', 'u']) false
        ⟨[(['/', 'u'], ' ' :: sqliteScheme)], [], []⟩
      ≠ CreateEngineRec 2 (' ' :: sqliteScheme) false
        ⟨[(['/', 'u'], ' ' :: sqliteScheme)], [], []⟩ := by
  intro h
  have h1 : CreateEngineRec 2 (fileScheme ++ ['/', 'u']) false
      ⟨[(['/', 'u'], ' ' :: sqliteScheme)], [], []⟩
      = some (Except.ok ⟨sqliteScheme, ⟨[(['/', 'u'], ' ' :: sqliteScheme)], [], []⟩⟩) := rfl
  have h2 : CreateEngineRec 2 (' ' :: sqliteScheme) false
      ⟨[(['/', 'u'], ' ' :: sqliteScheme)], [], []⟩
      = some (Except.error (CreateEngineError.unsupportedUrlError (' ' :: sqliteScheme))) := rfl
  rw [h1, h2] at h
  simp at h

/-- Claim C7 (amended): Drop with confirmation issues the drop-database
statement for the mysql backend and deletes the file for a single-file
sqlite database whose file exists; the in-memory sqlite form fails the
path-is-file assertion, and postgresql, like every other scheme that is
neither mysql nor sqlite, fails with NotImplementedError. -/
theorem drop_confirmed_behavior (w : World) (rest p url : Str)
    (hfile : isFile w ('/' :: p) = true)
    (hmem : isFile w [] = false)
    (hm : startsWith mysqlScheme url = false)
    (hs : startsWith sqliteScheme url = false) :
    ((Drop (mysqlScheme ++ rest) true w).error = none
      ∧ (Drop (mysqlScheme ++ rest) true w).actions
          = [DropAction.execDropDatabase (mysqlDatabaseName (mysqlScheme ++ rest))])
  ∧ ((Drop (sqliteScheme ++ '/' :: '/' :: p) true w).error = none
      ∧ (Drop (sqliteScheme ++ '/' :: '/' :: p) true w).actions
          = [DropAction.unlink ('/' :: p)])
  ∧ (Drop sqliteScheme true w).error = some DropError.assertionError
  ∧ Drop url true w = ⟨some (DropError.notImplementedError url), [], w⟩ := by
  have h1 : startsWith mysqlScheme (mysqlScheme ++ rest) = true := rfl
  have h2 : startsWith mysqlScheme (sqliteScheme ++ '/' :: '/' :: p) = false := rfl
  have h3 : startsWith sqliteScheme (sqliteScheme ++ '/' :: '/' :: p) = true := rfl
  have h4 : (sqliteScheme ++ '/' :: '/' :: p).drop 10 = '/' :: p := rfl
  have h5 : startsWith mysqlScheme sqliteScheme = false := rfl
  have h6 : startsWith sqliteScheme sqliteScheme = true := rfl
  have h7 : sqliteScheme.drop 10 = ([] : Str) := rfl
  refine ⟨⟨?_, ?_⟩, ⟨?_, ?_⟩, ?_, ?_⟩ <;>
    simp [Drop, h1, h2, h3, h4, h5, h6, h7, hfile, hmem, hm, hs]

/-- Claim C7 (counterexample): Drop with confirmation on a postgresql
descriptor raises NotImplementedError even though the named database exists
on the server, so the claim that both networked backends succeed is false. -/
theorem drop_postgresql_cex :
    (Drop (postgresqlScheme ++ ['h', '/', 'd']) true ⟨[], [], [['d']]⟩).error
      = some (DropError.notImplementedError (postgresqlScheme ++ ['h', '/', 'd'])) := rfl

/-- Claim C1: the session scope always ends by closing the session, and when
the body raises an error the scope rolls the transaction back, leaves the
committed state unchanged, issues no commit, and re-raises the same error. -/
theorem sessionScope_error_safety {sigma epsilon : Type} (c : Bool) (db : sigma)
    (body : sigma → Except epsilon sigma) :
    (sessionScope c db body).events.getLast? = some SessionEvent.close
  ∧ (∀ e, body db = Except.error e →
      (sessionScope c db body).outcome = Except.error e
      ∧ (sessionScope c db body).events
          = [SessionEvent.rollback, SessionEvent.close]
      ∧ SessionEvent.commit ∉ (sessionScope c db body).events
      ∧ (sessionScope c db body).db = db) := by
  constructor
  · cases hb : body db with
    | ok pending => cases c <;> simp [sessionScope, hb]
    | error e => simp [sessionScope, hb]
  · intro e he
    simp [sessionScope, he]

/-- Witness for claim C1 at a body that raises an error. -/
theorem sessionScope_error_safety_witness :
    (sessionScope true (0 : Nat) (fun _ => Except.error "boom")).outcome
        = Except.error "boom"
  ∧ (sessionScope true (0 : Nat) (fun _ => Except.error "boom")).events
        = [SessionEvent.rollback, SessionEvent.close]
  ∧ (sessionScope true (0 : Nat) (fun _ => Except.error "boom")).db = 0 := by
  have h := (sessionScope_error_safety true (0 : Nat)
    (fun _ => Except.error "boom")).2 "boom" rfl
  exact ⟨h.1, h.2.1, h.2.2.2⟩

/-- Lookup in an appended association list tries the left part first. -/
theorem assocLookup_append {κ ν : Type} [DecidableEq κ] (k : κ)
    (l1 l2 : List (κ × ν)) :
    assocLookup k (l1 ++ l2)
      = match assocLookup k l1 with
        | some v => some v
        | none => assocLookup k l2 := by
  induction l1 with
  | nil => simp [assocLookup]
  | cons kv r ih =>
    obtain ⟨k1, v⟩ := kv
    by_cases h : k1 = k <;> simp [assocLookup, h, ih]

/-- Lookup in the updated-base part of dict.update. -/
theorem assocLookup_updMap (k : String) (base upd : Row) :
    assocLookup k (base.map (fun kv =>
        match assocLookup kv.1 upd with
        | some v => (kv.1, v)
        | none => kv))
      = match assocLookup k base with
        | some w => some ((assocLookup k upd).getD w)
        | none => none := by
  induction base with
  | nil => simp [assocLookup]
  | cons kv r ih =>
    obtain ⟨k1, v⟩ := kv
    by_cases h : k1 = k
    · subst h
      cases hu : assocLookup k1 upd <;> simp [assocLookup, hu]
    · cases hu : assocLookup k1 upd <;> simp [assocLookup, h, hu, ih]

/-- Lookup in the appended-updates part of dict.update for a key absent
from the base. -/
theorem assocLookup_filterUpd (k : String) (base upd : Row)
    (hbase : assocLookup k base = none) :
    assocLookup k (upd.filter (fun kv => (assocLookup kv.1 base).isNone))
      = assocLookup k upd := by
  induction upd with
  | nil => simp
  | cons kv r ih =>
    obtain ⟨k1, v⟩ := kv
    by_cases h : k1 = k
    · subst h
      simp [List.filter, assocLookup, hbase]
    · cases hf : (assocLookup k1 base).isNone <;>
        simp [List.filter, hf, assocLookup, h, ih]

/-- Lookup after dict.update: the update wins on key collisions. -/
theorem assocLookup_dictUpdate (base upd : Row) (k : String) :
    assocLookup k (dictUpdate base upd)
      = match assocLookup k upd with
        | some v => some v
        | none => assocLookup k base := by
  rw [dictUpdate, assocLookup_append, assocLookup_updMap]
  cases hb : assocLookup k base with
  | none =>
    rw [assocLookup_filterUpd k base upd hb]
    cases assocLookup k upd <;> rfl
  | some w =>
    cases assocLookup k upd <;> rfl

/-- A successful lookup result is a member of the association list. -/
theorem assocLookup_mem {κ ν : Type} [DecidableEq κ] (k : κ) (v : ν)
    (l : List (κ × ν)) (h : assocLookup k l = some v) : (k, v) ∈ l := by
  induction l with
  | nil => simp [assocLookup] at h
  | cons kv r ih =>
    obtain ⟨k1, v1⟩ := kv
    by_cases hk : k1 = k
    · subst hk
      simp [assocLookup] at h
      simp [h]
    · simp [assocLookup, hk] at h
      exact List.mem_cons_of_mem _ (ih h)

/-- A key all of whose kwargs values are ClauseElements does not survive
the ClauseElement filter. -/
theorem assocLookup_filter_all_clause (k : String) (kwargs : Row)
    (h : ∀ v, (k, v) ∈ kwargs → v.isClauseElement = true) :
    assocLookup k (kwargs.filter (fun kv => ! kv.2.isClauseElement)) = none := by
  induction kwargs with
  | nil => simp [assocLookup]
  | cons kv r ih =>
    obtain ⟨k1, v1⟩ := kv
    have hr : ∀ v, (k, v) ∈ r → v.isClauseElement = true := by
      intro v hv
      exact h v (List.mem_cons_of_mem _ hv)
    by_cases hk : k1 = k
    · subst hk
      have hv1 : v1.isClauseElement = true := h v1 (List.mem_cons_self _ _)
      simp [List.filter, hv1, ih hr]
    · cases hf : ! v1.isClauseElement <;> simp [List.filter, hf, assocLookup, hk, ih hr]

/-- Claim C2 (counterexample): with filter field a = 1 and default a = 2 and
no matching record, the created record carries a = 2, so defaults do
override explicit filter values. -/
theorem getOrAdd_defaults_override_cex :
    assocLookup "a" (GetOrAdd ⟨[], [], 0⟩ (some [("a", SqlValue.lit 2)])
        [("a", SqlValue.lit 1)]).1 = some (SqlValue.lit 2)
  ∧ SqlValue.lit 2 ≠ SqlValue.lit 1 := by
  exact ⟨rfl, by decide⟩

/-- Claim C2 (amended): when no record matches the filter, the new record is
built from the non-ClauseElement filter fields updated with the defaults,
where defaults override filter values on key collisions; the record is
appended to the pending stage of the session and no commit occurs, with the
visible rows unchanged. -/
theorem getOrAdd_create_semantics (s : SessionState) (defaults : Option Row)
    (kwargs : Row) (h : s.db.find? (rowMatches kwargs) = none) :
    (∀ k, assocLookup k (GetOrAdd s defaults kwargs).1
        = match assocLookup k (defaults.getD []) with
          | some v => some v
          | none =>
            assocLookup k (kwargs.filter (fun kv => ! kv.2.isClauseElement)))
  ∧ (GetOrAdd s defaults kwargs).2.pending
      = s.pending ++ [(GetOrAdd s defaults kwargs).1]
  ∧ (GetOrAdd s defaults kwargs).2.commits = s.commits
  ∧ (GetOrAdd s defaults kwargs).2.db = s.db := by
  refine ⟨?_, ?_, ?_, ?_⟩ <;>
    simp [GetOrAdd, h, assocLookup_dictUpdate]

/-- Witness for claim C2 at a concrete empty session. -/
theorem getOrAdd_create_semantics_witness :
    assocLookup "a" (GetOrAdd ⟨[], [], 0⟩ (some [("a", SqlValue.lit 2)])
        [("b", SqlValue.lit 7)]).1 = some (SqlValue.lit 2)
  ∧ (GetOrAdd ⟨[], [], 0⟩ (some [("a", SqlValue.lit 2)])
        [("b", SqlValue.lit 7)]).2.commits = 0 := by
  have h := getOrAdd_create_semantics ⟨[], [], 0⟩ (some [("a", SqlValue.lit 2)])
    [("b", SqlValue.lit 7)] rfl
  exact ⟨h.1 "a", h.2.2.1⟩

/-- Claim C10: when GetOrAdd creates a record, keys whose kwargs values are
all ClauseElements and which have no default are absent from the created
record, and every field of the created record comes from the defaults or
from a literal-valued (non ClauseElement) kwargs entry. -/
theorem getOrAdd_clause_elements_excluded (s : SessionState)
    (defaults : Option Row) (kwargs : Row)
    (h : s.db.find? (rowMatches kwargs) = none) :
    (∀ k, (∀ v, (k, v) ∈ kwargs → v.isClauseElement = true) →
        assocLookup k (defaults.getD []) = none →
        assocLookup k (GetOrAdd s defaults kwargs).1 = none)
  ∧ (∀ k v, assocLookup k (GetOrAdd s defaults kwargs).1 = some v →
        (k, v) ∈ defaults.getD []
      ∨ ((k, v) ∈ kwargs ∧ v.isClauseElement = false)) := by
  constructor
  · intro k hall hd
    simp [GetOrAdd, h, assocLookup_dictUpdate, hd,
      assocLookup_filter_all_clause k kwargs hall]
  · intro k v hv
    simp only [GetOrAdd, h] at hv
    rw [assocLookup_dictUpdate] at hv
    cases hd : assocLookup k (defaults.getD []) with
    | some w =>
      rw [hd] at hv
      simp at hv
      subst hv
      exact Or.inl (assocLookup_mem k w _ hd)
    | none =>
      rw [hd] at hv
      have hmem := assocLookup_mem k v _ hv
      rw [List.mem_filter] at hmem
      refine Or.inr ⟨hmem.1, ?_⟩
      have := hmem.2
      simp at this
      exact this

/-- Witness for claim C10 at a concrete kwargs with a ClauseElement value. -/
theorem getOrAdd_clause_elements_excluded_witness :
    assocLookup "a" (GetOrAdd ⟨[], [], 0⟩ none
        [("a", SqlValue.clauseElem "x"), ("b", SqlValue.lit 5)]).1 = none := by
  have h := getOrAdd_clause_elements_excluded ⟨[], [], 0⟩ none
    [("a", SqlValue.clauseElem "x"), ("b", SqlValue.lit 5)] rfl
  refine h.1 "a" ?_ rfl
  intro v hv
  rcases List.mem_cons.mp hv with h1 | h2
  · rw [Prod.mk.injEq] at h1
    rw [h1.2]
    rfl
  · simp at h2

/-- The loop emits nothing once the remaining rows are exhausted. -/
theorem offsetLimitLoop_drop_nil {alpha : Type} (q : List alpha) (k : Nat)
    (m : Option Nat) (fuel b i : Nat) (h : q.drop i = []) :
    offsetLimitLoop q k m fuel b i = [] := by
  cases fuel with
  | zero => rfl
  | succ f => simp [offsetLimitLoop, h]

/-- One non-empty iteration of the loop. -/
theorem offsetLimitLoop_cons {alpha : Type} (q : List alpha) (k : Nat)
    (m : Option Nat) (fuel b i : Nat) (h : ((q.drop i).take k).isEmpty = false) :
    offsetLimitLoop q k m (fuel + 1) b i
      = ⟨b + 1, i, i + k, m, (q.drop i).take k⟩ ::
        offsetLimitLoop q k m fuel (b + 1) (i + ((q.drop i).take k).length) := by
  simp [offsetLimitLoop, h]

/-- Every emitted batch has limit equal to offset plus the batch size. -/
theorem offsetLimitLoop_limit {alpha : Type} (q : List alpha) (k : Nat)
    (m : Option Nat) :
    ∀ fuel b i, ∀ x ∈ offsetLimitLoop q k m fuel b i, x.limit = x.offset + k := by
  intro fuel
  induction fuel with
  | zero =>
    intro b i x hx
    simp [offsetLimitLoop] at hx
  | succ f ih =>
    intro b i x hx
    by_cases hb : ((q.drop i).take k).isEmpty = true
    · simp [offsetLimitLoop, hb] at hx
    · rw [offsetLimitLoop_cons q k m f b i (by simpa using hb)] at hx
      rcases List.mem_cons.mp hx with rfl | hx2
      · rfl
      · exact ih _ _ x hx2

/-- Every emitted batch is non-empty: the loop stops on the first empty
result without emitting it. -/
theorem offsetLimitLoop_rows_ne_nil {alpha : Type} (q : List alpha) (k : Nat)
    (m : Option Nat) :
    ∀ fuel b i, ∀ x ∈ offsetLimitLoop q k m fuel b i, x.rows ≠ [] := by
  intro fuel
  induction fuel with
  | zero =>
    intro b i x hx
    simp [offsetLimitLoop] at hx
  | succ f ih =>
    intro b i x hx
    by_cases hb : ((q.drop i).take k).isEmpty = true
    · simp [offsetLimitLoop, hb] at hx
    · rw [offsetLimitLoop_cons q k m f b i (by simpa using hb)] at hx
      rcases List.mem_cons.mp hx with rfl | hx2
      · simpa using hb
      · exact ih _ _ x hx2

/-- The batch at position j carries batch number b + j + 1. -/
theorem offsetLimitLoop_batch_num {alpha : Type} (q : List alpha) (k : Nat)
    (m : Option Nat) :
    ∀ fuel b i j x, (offsetLimitLoop q k m fuel b i)[j]? = some x →
      x.batch_num = b + j + 1 := by
  intro fuel
  induction fuel with
  | zero =>
    intro b i j x hx
    simp [offsetLimitLoop] at hx
  | succ f ih =>
    intro b i j x hx
    by_cases hb : ((q.drop i).take k).isEmpty = true
    · simp [offsetLimitLoop, hb] at hx
    · rw [offsetLimitLoop_cons q k m f b i (by simpa using hb)] at hx
      cases j with
      | zero =>
        rw [List.getElem?_cons_zero] at hx
        cases hx
        rfl
      | succ j1 =>
        rw [List.getElem?_cons_succ] at hx
        have := ih (b + 1) (i + ((q.drop i).take k).length) j1 x hx
        omega

/-- The first emitted batch starts at the current offset. -/
theorem offsetLimitLoop_zero_offset {alpha : Type} (q : List alpha) (k : Nat)
    (m : Option Nat) (fuel b i : Nat) (x : OffsetLimitQueryResultsBatch alpha)
    (hx : (offsetLimitLoop q k m fuel b i)[0]? = some x) : x.offset = i := by
  cases fuel with
  | zero => simp [offsetLimitLoop] at hx
  | succ f =>
    by_cases hb : ((q.drop i).take k).isEmpty = true
    · simp [offsetLimitLoop, hb] at hx
    · rw [offsetLimitLoop_cons q k m f b i (by simpa using hb)] at hx
      rw [List.getElem?_cons_zero] at hx
      cases hx
      rfl

/-- Each batch starts where the previous one ended: the offset advances by
the number of rows actually returned. -/
theorem offsetLimitLoop_offset_chain {alpha : Type} (q : List alpha) (k : Nat)
    (m : Option Nat) :
    ∀ fuel b i j x y, (offsetLimitLoop q k m fuel b i)[j]? = some x →
      (offsetLimitLoop q k m fuel b i)[j + 1]? = some y →
      y.offset = x.offset + x.rows.length := by
  intro fuel
  induction fuel with
  | zero =>
    intro b i j x y hx hy
    simp [offsetLimitLoop] at hx
  | succ f ih =>
    intro b i j x y hx hy
    by_cases hb : ((q.drop i).take k).isEmpty = true
    · simp [offsetLimitLoop, hb] at hx
    · rw [offsetLimitLoop_cons q k m f b i (by simpa using hb)] at hx hy
      cases j with
      | zero =>
        rw [List.getElem?_cons_zero] at hx
        rw [List.getElem?_cons_succ] at hy
        cases hx
        have := offsetLimitLoop_zero_offset q k m f (b + 1)
          (i + ((q.drop i).take k).length) y hy
        rw [this]
      | succ j1 =>
        rw [List.getElem?_cons_succ] at hx hy
        exact ih (b + 1) (i + ((q.drop i).take k).length) j1 x y hx hy

/-- With rows remaining and positive batch size the loop emits a batch. -/
theorem offsetLimitLoop_ne_nil {alpha : Type} (q : List alpha) (k : Nat)
    (m : Option Nat) (hk : 0 < k) (fuel b i : Nat) (hrem : q.drop i ≠ []) :
    offsetLimitLoop q k m (fuel + 1) b i ≠ [] := by
  have hb : ((q.drop i).take k).isEmpty = false := by
    rw [← Bool.not_eq_true, List.isEmpty_iff]
    intro hnil
    rcases List.take_eq_nil_iff.mp hnil with h0 | h0
    · omega
    · exact hrem h0
  rw [offsetLimitLoop_cons q k m fuel b i hb]
  simp

/-- With rows remaining and positive batch size the queried batch is
non-empty. -/
theorem offsetLimitLoop_batch_isEmpty_false {alpha : Type} (q : List alpha)
    (k : Nat) (hk : 0 < k) (i : Nat) (hrem : q.drop i ≠ []) :
    ((q.drop i).take k).isEmpty = false := by
  rw [← Bool.not_eq_true, List.isEmpty_iff]
  intro hnil
  rcases List.take_eq_nil_iff.mp hnil with h0 | h0
  · omega
  · exact hrem h0

/-- After one iteration the remaining rows lose at most batch size rows. -/
theorem offsetLimitLoop_next_drop {alpha : Type} (q : List alpha) (k i : Nat) :
    q.drop (i + ((q.drop i).take k).length) = (q.drop i).drop k := by
  rw [List.length_take, ← List.drop_drop]
  rcases Nat.le_total k (q.drop i).length with h | h
  · rw [Nat.min_eq_left h]
  · rw [Nat.min_eq_right h, List.drop_length, List.drop_eq_nil_of_le h]

theorem offsetLimitLoop_join {alpha : Type} (q : List alpha) (k : Nat)
    (m : Option Nat) (hk : 0 < k) :
    ∀ fuel i b, (q.drop i).length < fuel →
      ((offsetLimitLoop q k m fuel b i).map (fun x => x.rows)).flatten = q.drop i := by
  intro fuel
  induction fuel with
  | zero =>
    intro i b h
    omega
  | succ f ih =>
    intro i b h
    by_cases hrem : q.drop i = []
    · rw [offsetLimitLoop_drop_nil q k m (f + 1) b i hrem, hrem]
      rfl
    · rw [offsetLimitLoop_cons q k m f b i
        (offsetLimitLoop_batch_isEmpty_false q k hk i hrem)]
      rw [List.map_cons, List.flatten_cons]
      have hlt : (q.drop (i + ((q.drop i).take k).length)).length < f := by
        rw [offsetLimitLoop_next_drop q k i, List.length_drop]
        have h1 : 0 < (q.drop i).length := List.length_pos.mpr hrem
        omega
      rw [ih _ (b + 1) hlt, offsetLimitLoop_next_drop q k i]
      rcases Nat.le_total k (q.drop i).length with hle | hle
      · exact List.take_append_drop k (q.drop i)
      · rw [List.take_of_length_le hle, List.drop_eq_nil_of_le hle, List.append_nil]

/-- The fuel bound is maintained across one iteration. -/
theorem offsetLimitLoop_next_lt {alpha : Type} (q : List alpha) (k : Nat)
    (hk : 0 < k) (f i : Nat) (h : (q.drop i).length < f + 1)
    (hrem : q.drop i ≠ []) :
    (q.drop (i + ((q.drop i).take k).length)).length < f := by
  rw [offsetLimitLoop_next_drop q k i, List.length_drop]
  have h1 : 0 < (q.drop i).length := List.length_pos.mpr hrem
  omega

/-- The loop emits the ceiling of remaining rows over batch size batches. -/
theorem offsetLimitLoop_length {alpha : Type} (q : List alpha) (k : Nat)
    (m : Option Nat) (hk : 0 < k) :
    ∀ fuel i b, (q.drop i).length < fuel →
      (offsetLimitLoop q k m fuel b i).length = ((q.drop i).length + k - 1) / k := by
  intro fuel
  induction fuel with
  | zero =>
    intro i b h
    omega
  | succ f ih =>
    intro i b h
    by_cases hrem : q.drop i = []
    · rw [offsetLimitLoop_drop_nil q k m (f + 1) b i hrem, hrem]
      simp only [List.length_nil, Nat.zero_add]
      exact (Nat.div_eq_of_lt (by omega)).symm
    · rw [offsetLimitLoop_cons q k m f b i
        (offsetLimitLoop_batch_isEmpty_false q k hk i hrem)]
      rw [List.length_cons]
      rw [ih _ (b + 1) (offsetLimitLoop_next_lt q k hk f i h hrem),
        offsetLimitLoop_next_drop q k i, List.length_drop]
      have h1 : 0 < (q.drop i).length := List.length_pos.mpr hrem
      rcases Nat.lt_or_ge k (q.drop i).length with hc | hc
      · have e1 : (q.drop i).length - k + k - 1 = ((q.drop i).length - k - 1) + k := by
          omega
        have e2 : (q.drop i).length + k - 1 = ((q.drop i).length - 1) + k := by omega
        have e3 : (q.drop i).length - 1 = ((q.drop i).length - k - 1) + k := by omega
        rw [e1, e2, Nat.add_div_right _ hk, Nat.add_div_right _ hk, e3,
          Nat.add_div_right _ hk]
      · have e1 : (q.drop i).length - k = 0 := by omega
        have e2 : (q.drop i).length + k - 1 = ((q.drop i).length - 1) + k := by omega
        rw [e1, e2, Nat.add_div_right _ hk]
        rw [Nat.div_eq_of_lt (by omega : 0 + k - 1 < k),
          Nat.div_eq_of_lt (by omega : (q.drop i).length - 1 < k)]

/-- If the recursive call emits nothing, at most one batch of rows
remained. -/
theorem offsetLimitLoop_rec_nil_le {alpha : Type} (q : List alpha) (k : Nat)
    (m : Option Nat) (hk : 0 < k) (f i b : Nat) (h : (q.drop i).length < f + 1)
    (hrem : q.drop i ≠ [])
    (hrec : offsetLimitLoop q k m f (b + 1) (i + ((q.drop i).take k).length) = []) :
    (q.drop i).length ≤ k := by
  by_contra hcon
  push_neg at hcon
  have hne : q.drop (i + ((q.drop i).take k).length) ≠ [] := by
    rw [offsetLimitLoop_next_drop q k i]
    intro h0
    have hlen : ((q.drop i).drop k).length = 0 := by
      rw [h0]
      rfl
    rw [List.length_drop] at hlen
    omega
  have hf : 0 < f := by
    have := offsetLimitLoop_next_lt q k hk f i h hrem
    omega
  obtain ⟨f1, rfl⟩ := Nat.exists_eq_succ_of_ne_zero (Nat.pos_iff_ne_zero.mp hf)
  exact offsetLimitLoop_ne_nil q k m hk f1 (b + 1) _ hne hrec

/-- If the recursive call emits a batch, more than batch size rows
remained. -/
theorem offsetLimitLoop_rec_ne_nil_lt {alpha : Type} (q : List alpha) (k : Nat)
    (m : Option Nat) (hrec : offsetLimitLoop q k m f (b + 1)
      (i + ((q.drop i).take k).length) ≠ []) :
    k < (q.drop i).length := by
  by_contra hcon
  push_neg at hcon
  apply hrec
  apply offsetLimitLoop_drop_nil
  rw [offsetLimitLoop_next_drop q k i]
  exact List.drop_eq_nil_of_le hcon

/-- Every batch except possibly the last is full. -/
theorem offsetLimitLoop_dropLast_rows {alpha : Type} (q : List alpha) (k : Nat)
    (m : Option Nat) (hk : 0 < k) :
    ∀ fuel i b, (q.drop i).length < fuel →
      ∀ x ∈ (offsetLimitLoop q k m fuel b i).dropLast, x.rows.length = k := by
  intro fuel
  induction fuel with
  | zero =>
    intro i b h
    omega
  | succ f ih =>
    intro i b h x hx
    by_cases hrem : q.drop i = []
    · rw [offsetLimitLoop_drop_nil q k m (f + 1) b i hrem] at hx
      simp at hx
    · rw [offsetLimitLoop_cons q k m f b i
        (offsetLimitLoop_batch_isEmpty_false q k hk i hrem)] at hx
      by_cases hrec : offsetLimitLoop q k m f (b + 1)
          (i + ((q.drop i).take k).length) = []
      · rw [hrec] at hx
        simp at hx
      · rw [List.dropLast_cons_of_ne_nil hrec] at hx
        rcases List.mem_cons.mp hx with rfl | hx2
        · have hlt := offsetLimitLoop_rec_ne_nil_lt q k m hrec
          show ((q.drop i).take k).length = k
          rw [List.length_take, Nat.min_eq_left (Nat.le_of_lt hlt)]
        · exact ih _ (b + 1) (offsetLimitLoop_next_lt q k hk f i h hrem) x hx2

/-- The last batch holds the remainder of the division, or a full batch
when the division is exact. -/
theorem offsetLimitLoop_getLast_rows {alpha : Type} (q : List alpha) (k : Nat)
    (m : Option Nat) (hk : 0 < k) :
    ∀ fuel i b, (q.drop i).length < fuel →
      ∀ x, (offsetLimitLoop q k m fuel b i).getLast? = some x →
      x.rows.length
        = if (q.drop i).length % k = 0 then k else (q.drop i).length % k := by
  intro fuel
  induction fuel with
  | zero =>
    intro i b h
    omega
  | succ f ih =>
    intro i b h x hx
    by_cases hrem : q.drop i = []
    · rw [offsetLimitLoop_drop_nil q k m (f + 1) b i hrem] at hx
      simp at hx
    · rw [offsetLimitLoop_cons q k m f b i
        (offsetLimitLoop_batch_isEmpty_false q k hk i hrem)] at hx
      have h1 : 0 < (q.drop i).length := List.length_pos.mpr hrem
      rcases hrec : offsetLimitLoop q k m f (b + 1)
          (i + ((q.drop i).take k).length) with _ | ⟨y, ys⟩
      · rw [hrec] at hx
        rw [List.getLast?_singleton] at hx
        cases hx
        have hle := offsetLimitLoop_rec_nil_le q k m hk f i b h hrem hrec
        show ((q.drop i).take k).length = _
        rw [List.length_take]
        by_cases hnk : (q.drop i).length = k
        · rw [hnk]
          simp [Nat.mod_self]
        · have hltk : (q.drop i).length < k := by omega
          rw [Nat.min_eq_right (Nat.le_of_lt hltk),
            Nat.mod_eq_of_lt hltk, if_neg (by omega)]
      · rw [hrec, List.getLast?_cons_cons] at hx
        have hgt : k < (q.drop i).length :=
          offsetLimitLoop_rec_ne_nil_lt q k m (by rw [hrec]; simp)
        have hres := ih _ (b + 1) (offsetLimitLoop_next_lt q k hk f i h hrem) x
          (by rw [hrec]; exact hx)
        rw [offsetLimitLoop_next_drop q k i, List.length_drop] at hres
        have hmod : ((q.drop i).length - k) % k = (q.drop i).length % k := by
          conv_rhs => rw [show (q.drop i).length = ((q.drop i).length - k) + k by omega]
          rw [Nat.add_mod_right]
        rw [hmod] at hres
        exact hres

/-- Claim C3: over N rows with positive batch size k and start offset 0 the
iterator yields exactly ceil(N over k) batches; every batch except possibly
the last holds k rows and the last holds N mod k rows when N mod k is
positive, else k; the concatenation of all batches equals the full result in
order; the offset of the first batch is 0 and each later offset advances by
the number of rows the previous batch returned; and no empty batch is ever
emitted, since iteration stops on the first empty result. -/
theorem OffsetLimitBatchedQuery_spec (alpha : Type) (query : List alpha)
    (k : Nat) (m : Bool) (hk : 0 < k) :
    (OffsetLimitBatchedQuery query k 0 m).length = (query.length + k - 1) / k
  ∧ (∀ x ∈ (OffsetLimitBatchedQuery query k 0 m).dropLast, x.rows.length = k)
  ∧ (∀ x, (OffsetLimitBatchedQuery query k 0 m).getLast? = some x →
      x.rows.length = if query.length % k = 0 then k else query.length % k)
  ∧ ((OffsetLimitBatchedQuery query k 0 m).map (fun x => x.rows)).flatten = query
  ∧ (∀ x, (OffsetLimitBatchedQuery query k 0 m)[0]? = some x → x.offset = 0)
  ∧ (∀ j x y, (OffsetLimitBatchedQuery query k 0 m)[j]? = some x →
      (OffsetLimitBatchedQuery query k 0 m)[j + 1]? = some y →
      y.offset = x.offset + x.rows.length)
  ∧ (∀ x ∈ OffsetLimitBatchedQuery query k 0 m, x.rows ≠ []) := by
  have hfuel : (query.drop 0).length < query.length + 1 := by simp
  unfold OffsetLimitBatchedQuery
  refine ⟨?_, ?_, ?_, ?_, ?_, ?_, ?_⟩
  · have := offsetLimitLoop_length query k
      (if m then some query.length else none) hk (query.length + 1) 0 0 hfuel
    simpa using this
  · intro x hx
    exact offsetLimitLoop_dropLast_rows query k
      (if m then some query.length else none) hk (query.length + 1) 0 0 hfuel x hx
  · intro x hx
    have := offsetLimitLoop_getLast_rows query k
      (if m then some query.length else none) hk (query.length + 1) 0 0 hfuel x hx
    simpa using this
  · have := offsetLimitLoop_join query k
      (if m then some query.length else none) hk (query.length + 1) 0 0 hfuel
    simpa using this
  · intro x hx
    exact offsetLimitLoop_zero_offset query k
      (if m then some query.length else none) (query.length + 1) 0 0 x hx
  · intro j x y hx hy
    exact offsetLimitLoop_offset_chain query k
      (if m then some query.length else none) (query.length + 1) 0 0 j x y hx hy
  · intro x hx
    exact offsetLimitLoop_rows_ne_nil query k
      (if m then some query.length else none) (query.length + 1) 0 0 x hx

/-- Witness for claim C3 over five rows with batch size two. -/
theorem OffsetLimitBatchedQuery_spec_witness :
    (OffsetLimitBatchedQuery [0, 1, 2, 3, 4] 2 0 false).length = (5 + 2 - 1) / 2
  ∧ ((OffsetLimitBatchedQuery [0, 1, 2, 3, 4] 2 0 false).map
      (fun x => x.rows)).flatten = [0, 1, 2, 3, 4] := by
  have h := OffsetLimitBatchedQuery_spec Nat [0, 1, 2, 3, 4] 2 false (by decide)
  exact ⟨h.1, h.2.2.2.1⟩

/-- Claim C9: every emitted batch has limit equal to offset plus batch size,
even when the batch holds fewer rows, and the batch at zero-based position j
carries batch number j + 1, so the n-th emitted batch is numbered n counting
from 1. -/
theorem OffsetLimitBatchedQuery_limit_batchnum (alpha : Type) (query : List alpha)
    (k i0 : Nat) (m : Bool) :
    (∀ x ∈ OffsetLimitBatchedQuery query k i0 m, x.limit = x.offset + k)
  ∧ (∀ j x, (OffsetLimitBatchedQuery query k i0 m)[j]? = some x →
      x.batch_num = j + 1) := by
  unfold OffsetLimitBatchedQuery
  constructor
  · intro x hx
    exact offsetLimitLoop_limit query k
      (if m then some query.length else none) (query.length + 1) 0 i0 x hx
  · intro j x hx
    have := offsetLimitLoop_batch_num query k
      (if m then some query.length else none) (query.length + 1) 0 i0 j x hx
    simpa using this

/-- Witness for claim C9 over three rows with batch size two. -/
theorem OffsetLimitBatchedQuery_limit_batchnum_witness :
    (⟨1, 0, 2, none, [10, 20]⟩ : OffsetLimitQueryResultsBatch Nat).limit
        = (⟨1, 0, 2, none, [10, 20]⟩ : OffsetLimitQueryResultsBatch Nat).offset + 2
  ∧ (⟨1, 0, 2, none, [10, 20]⟩ : OffsetLimitQueryResultsBatch Nat).batch_num = 0 + 1 := by
  have h := OffsetLimitBatchedQuery_limit_batchnum Nat [10, 20, 30] 2 0 false
  exact ⟨h.1 ⟨1, 0, 2, none, [10, 20]⟩ (by decide),
    h.2 0 ⟨1, 0, 2, none, [10, 20]⟩ rfl⟩

/-- Claim C5: a single-file sqlite descriptor naming any non-empty relative
path (first character not a slash) fails with the relative-path
ConfigurationError, for either value of must_exist. -/
theorem createEngine_relative_sqlite_rejected (fuel : Nat) (me : Bool) (w : World)
    (c : Char) (p : Str) (hc : c ≠ '/') :
    CreateEngineRec (fuel + 1) (sqliteScheme ++ '/' :: c :: p) me w
      = some (Except.error CreateEngineError.relativeSqlitePathError) := by
  simp [CreateEngineRec, startsWith, mysqlScheme, sqliteScheme, sqliteAbsoluteForm,
    Ne.symm hc]

/-- Witness for claim C5 at the relative path rel. -/
theorem createEngine_relative_sqlite_rejected_witness :
    CreateEngineRec 1 (sqliteScheme ++ '/' :: 'r' :: ['e', 'l']) true ⟨[], [], []⟩
      = some (Except.error CreateEngineError.relativeSqlitePathError) :=
  createEngine_relative_sqlite_rejected 0 true ⟨[], [], []⟩ 'r' ['e', 'l'] (by decide)

/-- Claim C6: Drop without the confirmation flag always fails with the
confirmation-required error, for every backend, performs no destructive
action and leaves the world unchanged. -/
theorem drop_requires_confirmation (url : Str) (w : World) :
    Drop url false w = ⟨some DropError.confirmationRequiredError, [], w⟩ := by
  simp [Drop]

/-- Claim C8: building an engine for the in-memory sqlite descriptor with
must_exist true always fails with the ConfigurationError reserved for that
combination. -/
theorem createEngine_memory_must_exist_rejected (fuel : Nat) (w : World) :
    CreateEngineRec (fuel + 1) sqliteScheme true w
      = some (Except.error CreateEngineError.inMemoryMustExistError) := rfl

/-- Witness for claim C7 at concrete descriptors and a world holding the
sqlite file. -/
theorem drop_confirmed_behavior_witness :
    Drop (postgresqlScheme ++ ['h', '/', 'd']) true ⟨[(['/', 'd', 'b'], [])], [], []⟩
        = ⟨some (DropError.notImplementedError (postgresqlScheme ++ ['h', '/', 'd'])),
          [], ⟨[(['/', 'd', 'b'], [])], [], []⟩⟩
  ∧ (Drop sqliteScheme true ⟨[(['/', 'd', 'b'], [])], [], []⟩).error
        = some DropError.assertionError := by
  have h := drop_confirmed_behavior ⟨[(['/', 'd', 'b'], [])], [], []⟩ ['h']
    ['d', 'b'] (postgresqlScheme ++ ['h', '/', 'd']) (by decide) (by decide)
    (by decide) (by decide)
  exact ⟨h.2.2.2, h.2.2.1⟩

/-- Witness for claim C4 at a concrete world with one referenced file. -/
theorem createEngine_file_indirection_strip_witness :
    (CreateEngineRec 2 ((fileScheme ++ ['/', 'u']) ++ '?' :: ['x']) false
        ⟨[(['/', 'u'], sqliteScheme)], [], []⟩
      = CreateEngineRec 1 (stripComments sqliteScheme ++ ['x']) false
        ⟨[(['/', 'u'], sqliteScheme)], [], []⟩)
  ∧ (CreateEngineRec 2 (fileScheme ++ ['/', 'u']) false
        ⟨[(['/', 'u'], sqliteScheme)], [], []⟩
      = CreateEngineRec 1 (stripComments sqliteScheme) false
        ⟨[(['/', 'u'], sqliteScheme)], [], []⟩) :=
  createEngine_file_indirection_strip 1 false ⟨[(['/', 'u'], sqliteScheme)], [], []⟩
    ['/', 'u'] ['x'] sqliteScheme (by decide) (by decide) rfl
